import Mathlib

/-!
Verification development for the configuration-resolution subsystem of the
ecspresso deployment CLI (config.go).

The Go code is shallowly embedded:
* the process environment table is a function `String → Option String`
  (`none` = variable absent), mutated by explicit state passing;
* fallible Go functions returning `(T, error)` become `Except String T`,
  except `Load`, whose literal `(conf *Config, err error)` return pair is
  kept as `Option Config × Option String` so the "nil config on error"
  contract is a theorem rather than a typing artifact;
* external collaborators (the go-config reader, the jsonnet VM, the
  go-version constraint parser/checker, the AWS config loader, plugin
  `Setup` implementations, and the list of built-in default plugin names,
  all of which live outside this source slice) are parameters gathered in
  the `Ops` structure, so every theorem quantifies over their behavior;
* the `path/filepath` standard-library functions used by the code
  (`Ext`, `Dir`, `IsAbs`, `Join`, `Clean`) are translated from their
  documented Unix semantics.
-/

/-- A process environment table: key to optional value. -/
abbrev EnvTable := String → Option String

/-- Raw document bytes (Go `[]byte`) are modelled as strings. -/
abbrev Bytes := String

/-- `os.Setenv k v` on an environment table. -/
def setenvF (e : EnvTable) (k v : String) : EnvTable :=
  fun k2 => if k2 = k then some v else e k2

/-- `os.Unsetenv k` on an environment table. -/
def unsetenvF (e : EnvTable) (k : String) : EnvTable :=
  fun k2 => if k2 = k then none else e k2

/-- `os.Getenv k` (returns the empty string when the key is absent). -/
def envGet (e : EnvTable) (k : String) : String :=
  (e k).getD ""

/-- The first loop of `withExtraEnvSet`: for each key of `extraEnv`,
record the previous value (`none` when the variable was absent, mirroring
the `nil` sentinel stored in `oldValues`) and set the key.  The Go code
iterates a map; the embedding takes the entries as a list, and theorems
quantify over the order. -/
def saveAndSet : List (String × String) → List (String × Option String) × EnvTable →
    List (String × Option String) × EnvTable
  | [], acc => acc
  | kv :: rest, acc =>
    saveAndSet rest ((kv.1, acc.2 kv.1) :: acc.1, setenvF acc.2 kv.1 kv.2)

/-- The deferred loop of `withExtraEnvSet`: restore each recorded key,
unsetting it when the recorded previous value is `none`. -/
def restoreOld : List (String × Option String) → EnvTable → EnvTable
  | [], e => e
  | kv :: rest, e =>
    match kv.2 with
    | none => restoreOld rest (unsetenvF e kv.1)
    | some v => restoreOld rest (setenvF e kv.1 v)

/-- `(*configLoader).withExtraEnvSet`: when `extraEnv` is non-nil, save the
prior state of each key and set it, run `f`, and restore the saved state
afterwards (the Go `defer` runs on every exit path, so the restoration is
unconditional here); when `extraEnv` is nil, just run `f`.  The wrapped
operation receives the overlaid environment and may itself read and mutate
the table. -/
def withExtraEnvSet (extraEnv : Option (List (String × String)))
    (f : EnvTable → Except String Bytes × EnvTable) (env : EnvTable) :
    Except String Bytes × EnvTable :=
  match extraEnv with
  | none => f env
  | some kvs =>
    let acc := saveAndSet kvs ([], env)
    let r := f acc.2
    (r.1, restoreOld acc.1 r.2)

/-- Environment after the set-loop only (used to state what the wrapped
operation observes). -/
def setAll : List (String × String) → EnvTable → EnvTable
  | [], e => e
  | kv :: rest, e => setAll rest (setenvF e kv.1 kv.2)

/-! ## Go `path/filepath` (Unix rules) -/

/-- `filepath.IsAbs` on Unix: the path begins with a slash. -/
def goIsAbs (p : String) : Bool :=
  match p.data with
  | [] => false
  | c :: _ => c = '/'

/-- Split a character list on `'/'` (like `strings.Split` with a one-byte
separator), producing the list of path elements between slashes. -/
def splitSlashAux : List Char → List Char → List String
  | [], acc => [String.mk acc.reverse]
  | c :: rest, acc =>
    if c = '/' then String.mk acc.reverse :: splitSlashAux rest []
    else splitSlashAux rest (c :: acc)

/-- One step of `filepath.Clean`'s element processing: drop empty and `.`
elements; on `..` pop a poppable last element, at the root drop it, and
otherwise keep it; append any other element. -/
def cleanPush (rooted : Bool) (out : List String) (seg : String) : List String :=
  if seg = "" ∨ seg = "." then out
  else if seg = ".." then
    if out ≠ [] ∧ out.getLast? ≠ some ".." then out.dropLast
    else if rooted then out
    else out ++ [".."]
  else out ++ [seg]

/-- Join path elements with slashes. -/
def joinSlash : List String → String
  | [] => ""
  | [a] => a
  | a :: b :: rest => a ++ "/" ++ joinSlash (b :: rest)

/-- `filepath.Clean` (Unix): the empty path cleans to `"."`; otherwise the
elements are processed left to right per `cleanPush` and reassembled,
with a rooted path keeping its leading slash and an emptied result
becoming `"/"` or `"."`. -/
def goClean (path : String) : String :=
  if path = "" then "."
  else
    let rooted := goIsAbs path
    let out := (splitSlashAux path.data []).foldl (cleanPush rooted) []
    if out = [] then (if rooted then "/" else ".")
    else (if rooted then "/" else "") ++ joinSlash out

/-- `filepath.Join` restricted to the two-argument form used by the code:
join the non-empty arguments with a slash and clean the result. -/
def goJoin (a b : String) : String :=
  if a ≠ "" then goClean (a ++ "/" ++ b)
  else if b ≠ "" then goClean b
  else ""

/-- Scan a reversed character list for the extension: stop with `""` at a
slash or at the start, and return from the last dot onwards. -/
def goExtAux : List Char → List Char → String
  | [], _ => ""
  | c :: rest, acc =>
    if c = '/' then ""
    else if c = '.' then String.mk ('.' :: acc)
    else goExtAux rest (c :: acc)

/-- `filepath.Ext`: the suffix from the final dot in the final
slash-separated element, empty when there is no dot. -/
def goExt (p : String) : String :=
  goExtAux p.data.reverse []

/-- `filepath.Dir`: everything up to and including the final slash,
cleaned (`"."` when there is no slash). -/
def goDir (p : String) : String :=
  goClean (String.mk ((p.data.reverse.dropWhile (fun c => c ≠ '/')).reverse))

/-! ## Data model (`Config` and friends) -/

/-- `Duration` wraps `time.Duration` (nanoseconds). -/
structure Duration where
  val : Int
deriving DecidableEq, Repr

/-- `DefaultClusterName` constant. -/
def DefaultClusterName : String := "default"

/-- `DefaultTimeout = 10 * time.Minute`, in nanoseconds. -/
def DefaultTimeout : Int := 10 * 60 * 1000000000

/-- A plugin declaration: a name and an opaque configuration payload. -/
structure ConfigPlugin where
  Name : String
  config : List (String × String) := []
deriving DecidableEq, Repr

/-- `ConfigIgnore`: the set of tag keys to strip. -/
structure ConfigIgnore where
  Tags : List String := []
deriving DecidableEq, Repr

/-- `ConfigCodeDeploy` descriptor. -/
structure ConfigCodeDeploy where
  ApplicationName : String := ""
  DeploymentGroupName : String := ""
deriving DecidableEq, Repr

/-- The `Config` entity.  Pointer-valued Go fields become `Option`; the
unexported fields `path`, `dir` and `versionConstraints` are carried
explicitly.  The parsed constraint set is represented by its rendered
expression string (`Option` distinguishes the Go nil slice); the resolved
AWS client configuration and the accumulated template/native function
registrations carry no data the claims observe and are left out of the
record (the loading of the former and the registration loops for the
latter are still modelled in `Restrict` and `Load`). -/
structure Config where
  RequiredVersion : String := ""
  Region : String := ""
  Cluster : String := ""
  Service : String := ""
  ServiceDefinitionPath : String := ""
  TaskDefinitionPath : String := ""
  Plugins : List ConfigPlugin := []
  AppSpec : Option Unit := none
  FilterCommand : String := ""
  Timeout : Option Duration := none
  CodeDeploy : Option ConfigCodeDeploy := none
  Ignore : Option ConfigIgnore := none
  Env : List (String × String) := []
  path : String := ""
  dir : String := ""
  versionConstraints : Option String := none
deriving DecidableEq, Repr

/-! ## External collaborators

Everything the slice calls but does not define is a parameter, so that the
theorems hold for every behavior of the collaborators. -/

/-- The external collaborators of the loader, over an abstract semantic
version type `V`:
* `readFile`/`readBytes` — the go-config `Loader.ReadWithEnv` /
  `ReadWithEnvBytes` substitution readers (they read the environment
  table and do not mutate it);
* `evalJsonnet` — `VM.EvaluateFile` (reads the environment through native
  functions such as `must_env`);
* `unmarshalYAML`/`unmarshalJSON` — the structural decoders, producing the
  serialized fields of a `Config`;
* `newConstraint` — `go-version.NewConstraint`, returning the rendered
  constraint expression on success;
* `parseVersion` — `go-version.NewVersion` (`none` = parse failure);
* `checkConstraints` — `Constraints.Check` against a parsed version;
* `loadAws` — `awsConfig.LoadDefaultConfig` (its resolved value is not
  observed by any claim);
* `setup` — `ConfigPlugin.Setup`, which may mutate the whole config;
* `defaultPluginNames` — the fixed list of built-in plugin names declared
  outside this slice. -/
structure Ops (V : Type) where
  readFile : String → EnvTable → Except String Bytes
  readBytes : Bytes → EnvTable → Except String Bytes
  evalJsonnet : String → EnvTable → Except String String
  unmarshalYAML : Bytes → Except String Config
  unmarshalJSON : Bytes → Except String Config
  newConstraint : String → Except String String
  parseVersion : String → Option V
  checkConstraints : String → V → Bool
  loadAws : Except String Unit
  setup : ConfigPlugin → Config → Except String Config
  defaultPluginNames : List String

/-- `(*configLoader).ReadWithEnv`: delegate to the scoped overlay around
the underlying reader. -/
def ReadWithEnv {V : Type} (ops : Ops V) (configPath : String)
    (extraEnv : Option (List (String × String))) (env : EnvTable) :
    Except String Bytes × EnvTable :=
  withExtraEnvSet extraEnv (fun e => (ops.readFile configPath e, e)) env

/-- `(*configLoader).ReadWithEnvBytes`: same, over a byte buffer. -/
def ReadWithEnvBytes {V : Type} (ops : Ops V) (b : Bytes)
    (extraEnv : Option (List (String × String))) (env : EnvTable) :
    Except String Bytes × EnvTable :=
  withExtraEnvSet extraEnv (fun e => (ops.readBytes b e, e)) env

/-- Modelled from the spec: the built-in default plugin declarations are
constructed by name only (`ConfigPlugin{Name: name}` in `setupPlugins`),
the names themselves being a fixed list declared outside this slice. -/
def mkDefaultPlugins (names : List String) : List ConfigPlugin :=
  names.map (fun n => { Name := n })

/-- The `Setup` loop of `(*Config).setupPlugins`: run each plugin's setup
sequentially on the accumulated config, stopping at the first error. -/
def setupPluginsList (setup : ConfigPlugin → Config → Except String Config) :
    List ConfigPlugin → Config → Except String Config
  | [], c => Except.ok c
  | p :: rest, c =>
    match setup p c with
    | Except.error e => Except.error e
    | Except.ok c2 => setupPluginsList setup rest c2

/-- Instrumented variant of the setup loop that also returns, in order,
the names of the plugins whose `Setup` was actually invoked. -/
def setupPluginsListT (setup : ConfigPlugin → Config → Except String Config) :
    List ConfigPlugin → Config → Except String Config × List String
  | [], c => (Except.ok c, [])
  | p :: rest, c =>
    match setup p c with
    | Except.error e => (Except.error e, [p.Name])
    | Except.ok c2 =>
      let r := setupPluginsListT setup rest c2
      (r.1, p.Name :: r.2)

/-- `(*Config).setupPlugins`: the built-in default plugins first, then the
user-declared plugins in declaration order. -/
def setupPlugins {V : Type} (ops : Ops V) (c : Config) : Except String Config :=
  setupPluginsList ops.setup (mkDefaultPlugins ops.defaultPluginNames ++ c.Plugins) c

/-- The path-normalization step of `Restrict`: a non-empty, non-absolute
definition path is joined onto the config directory; otherwise it is left
alone. -/
def normPath (dir p : String) : String :=
  if p ≠ "" ∧ goIsAbs p = false then goJoin dir p else p

/-- `(*Config).Restrict`: default the cluster name and directory, resolve
the definition paths, parse the required-version constraint, default the
timeout and region, load the AWS client configuration, and run the plugin
pipeline.  Each step's error wrapping matches the source's `fmt.Errorf`
format strings. -/
def Restrict {V : Type} (ops : Ops V) (c0 : Config) (env : EnvTable) :
    Except String Config :=
  let c1 := if c0.Cluster = "" then { c0 with Cluster := DefaultClusterName } else c0
  let c2 := if c1.dir = "" then { c1 with dir := "." } else c1
  let c3 := { c2 with ServiceDefinitionPath := normPath c2.dir c2.ServiceDefinitionPath,
                      TaskDefinitionPath := normPath c2.dir c2.TaskDefinitionPath }
  match (if c3.RequiredVersion = "" then Except.ok c3
         else match ops.newConstraint c3.RequiredVersion with
              | Except.error e =>
                Except.error ("required_version has invalid format: " ++ e)
              | Except.ok cs => Except.ok { c3 with versionConstraints := some cs }) with
  | Except.error e => Except.error e
  | Except.ok c4 =>
    let c5 := if c4.Timeout = none then { c4 with Timeout := some ⟨DefaultTimeout⟩ } else c4
    let c6 := if c5.Region = "" then { c5 with Region := envGet env "AWS_REGION" } else c5
    match ops.loadAws with
    | Except.error e => Except.error ("failed to load aws config: " ++ e)
    | Except.ok _ =>
      match setupPlugins ops c6 with
      | Except.error e => Except.error ("failed to setup plugins: " ++ e)
      | Except.ok c7 => Except.ok c7

/-- `Restrict` instrumented with the list of plugin names whose `Setup`
was invoked (empty whenever the run fails before the plugin pipeline). -/
def RestrictT {V : Type} (ops : Ops V) (c0 : Config) (env : EnvTable) :
    Except String Config × List String :=
  let c1 := if c0.Cluster = "" then { c0 with Cluster := DefaultClusterName } else c0
  let c2 := if c1.dir = "" then { c1 with dir := "." } else c1
  let c3 := { c2 with ServiceDefinitionPath := normPath c2.dir c2.ServiceDefinitionPath,
                      TaskDefinitionPath := normPath c2.dir c2.TaskDefinitionPath }
  match (if c3.RequiredVersion = "" then Except.ok c3
         else match ops.newConstraint c3.RequiredVersion with
              | Except.error e =>
                Except.error ("required_version has invalid format: " ++ e)
              | Except.ok cs => Except.ok { c3 with versionConstraints := some cs }) with
  | Except.error e => (Except.error e, [])
  | Except.ok c4 =>
    let c5 := if c4.Timeout = none then { c4 with Timeout := some ⟨DefaultTimeout⟩ } else c4
    let c6 := if c5.Region = "" then { c5 with Region := envGet env "AWS_REGION" } else c5
    match ops.loadAws with
    | Except.error e => (Except.error ("failed to load aws config: " ++ e), [])
    | Except.ok _ =>
      let r := setupPluginsListT ops.setup
        (mkDefaultPlugins ops.defaultPluginNames ++ c6.Plugins) c6
      (match r.1 with
       | Except.error e => Except.error ("failed to setup plugins: " ++ e)
       | Except.ok c7 => Except.ok c7, r.2)

/-- `(*Config).ValidateVersion`: no constraint set parsed means success;
an unparsable runtime version is allowed with a warning; a parsed version
is checked against the constraints, a violation producing the error that
names both the version and the constraint expression. -/
def ValidateVersion {V : Type} (ops : Ops V) (c : Config) (version : String) :
    Except String Unit :=
  match c.versionConstraints with
  | none => Except.ok ()
  | some cs =>
    match ops.parseVersion version with
    | none => Except.ok ()
    | some v =>
      if ops.checkConstraints cs v then Except.ok ()
      else Except.error
        ("version " ++ version ++ " does not satisfy constraints required_version: " ++ cs)

/-- Modelled from the spec: the file-extension constants (`ymlExt` and
friends) are declared outside this slice; the spec fixes the supported
set. -/
def ymlExt : String := ".yml"

/-- Modelled from the spec: the `.yaml` extension constant. -/
def yamlExt : String := ".yaml"

/-- Modelled from the spec: the `.json` extension constant. -/
def jsonExt : String := ".json"

/-- Modelled from the spec: the `.jsonnet` extension constant. -/
def jsonnetExt : String := ".jsonnet"

/-- The tail of `Load` shared by both dialects: set the unexported `path`
and `dir` fields (the former is set before unmarshaling in the source,
but no decoder can touch an unexported field, so setting both here is
equivalent), then run `Restrict` and `ValidateVersion`.  The source then
registers the accumulated template and jsonnet native functions on the
loader, which carries no observable state in this model. -/
def loadFinish {V : Type} (ops : Ops V) (path version : String) (conf0 : Config)
    (env : EnvTable) : (Option Config × Option String) × EnvTable :=
  match Restrict ops { conf0 with path := path, dir := goDir path } env with
  | Except.error e => ((none, some e), env)
  | Except.ok conf2 =>
    match ValidateVersion ops conf2 version with
    | Except.error e => ((none, some e), env)
    | Except.ok _ => ((some conf2, none), env)

/-- `(*configLoader).Load`: dispatch on the file extension; YAML goes
through `ReadWithEnv` (with a nil extra environment) and the YAML
decoder; JSON/jsonnet is evaluated by the VM, passed through
`ReadWithEnvBytes` (nil extra environment) and the JSON decoder; any
other extension fails immediately.  The Go `(conf, err)` return pair is
kept literally. -/
def Load {V : Type} (ops : Ops V) (path version : String) (env : EnvTable) :
    (Option Config × Option String) × EnvTable :=
  if goExt path = ymlExt ∨ goExt path = yamlExt then
    match ReadWithEnv ops path none env with
    | (Except.error e, env1) => ((none, some e), env1)
    | (Except.ok b, env1) =>
      match ops.unmarshalYAML b with
      | Except.error e => ((none, some ("failed to parse yaml: " ++ e)), env1)
      | Except.ok conf0 => loadFinish ops path version conf0 env1
  else if goExt path = jsonExt ∨ goExt path = jsonnetExt then
    match ops.evalJsonnet path env with
    | Except.error e => ((none, some ("failed to evaluate jsonnet file: " ++ e)), env)
    | Except.ok jsonStr =>
      match ReadWithEnvBytes ops jsonStr none env with
      | (Except.error e, env1) => ((none, some ("failed to read template file: " ++ e)), env1)
      | (Except.ok b, env1) =>
        match ops.unmarshalJSON b with
        | Except.error e => ((none, some ("failed to unmarshal json: " ++ e)), env1)
        | Except.ok conf0 => loadFinish ops path version conf0 env1
  else ((none, some ("unsupported config file extension: " ++ goExt path)), env)

/-! ## Tag filter -/

/-- An ECS resource tag (`types.Tag` has pointer-valued key and value). -/
structure Tag where
  Key : Option String := none
  Value : Option String := none
deriving DecidableEq, Repr

/-- `aws.ToString`: dereference, with `""` for nil. -/
def awsToString (s : Option String) : String :=
  s.getD ""

/-- `(*ConfigIgnore).filterTags`: a nil receiver (`none` here) or an empty
key list passes the tags through; otherwise keep exactly the tags whose
key is not in the ignore list. -/
def filterTags (i : Option ConfigIgnore) (tags : List Tag) : List Tag :=
  match i with
  | none => tags
  | some ig =>
    if ig.Tags.length = 0 then tags
    else tags.filter (fun tag => !(ig.Tags.contains (awsToString tag.Key)))

/-- `(*ConfigIgnore).Apply`: write the filtered tag list back into the
entity (the entity's tag state is the list itself here) and return the
always-nil error. -/
def ConfigIgnoreApply (i : Option ConfigIgnore) (tags : List Tag) :
    List Tag × Option String :=
  (filterTags i tags, none)

/-! ## Lemmas about the scoped environment overlay -/

theorem saveAndSet_snd (kvs : List (String × String)) (old0 : List (String × Option String))
    (e : EnvTable) : (saveAndSet kvs (old0, e)).2 = setAll kvs e := by
  induction kvs generalizing old0 e with
  | nil => rfl
  | cons kv rest ih => simpa [saveAndSet, setAll] using ih _ _

theorem saveAndSet_fst (kvs : List (String × String)) (old0 : List (String × Option String))
    (e : EnvTable) (h : (kvs.map Prod.fst).Nodup) :
    (saveAndSet kvs (old0, e)).1 =
      (kvs.map (fun kv => (kv.1, e kv.1))).reverse ++ old0 := by
  induction kvs generalizing old0 e with
  | nil => rfl
  | cons kv rest ih =>
    rw [List.map_cons, List.nodup_cons] at h
    have hmaps : rest.map (fun x => (x.1, setenvF e kv.1 kv.2 x.1)) =
        rest.map (fun x => (x.1, e x.1)) := by
      refine List.map_congr_left (fun x hx => ?_)
      have hne : x.1 ≠ kv.1 := by
        intro hcontra
        exact h.1 (hcontra ▸ List.mem_map_of_mem Prod.fst hx)
      simp [setenvF, hne]
    calc (saveAndSet (kv :: rest) (old0, e)).1
        = (saveAndSet rest ((kv.1, e kv.1) :: old0, setenvF e kv.1 kv.2)).1 := rfl
      _ = (rest.map (fun x => (x.1, setenvF e kv.1 kv.2 x.1))).reverse ++
            ((kv.1, e kv.1) :: old0) := ih _ _ h.2
      _ = (rest.map (fun x => (x.1, e x.1))).reverse ++ ((kv.1, e kv.1) :: old0) := by
            rw [hmaps]
      _ = ((kv :: rest).map (fun x => (x.1, e x.1))).reverse ++ old0 := by
            simp [List.reverse_cons, List.append_assoc]

theorem setAll_not_mem (kvs : List (String × String)) (e : EnvTable) (k : String)
    (h : k ∉ kvs.map Prod.fst) : setAll kvs e k = e k := by
  induction kvs generalizing e with
  | nil => rfl
  | cons kv rest ih =>
    rw [List.map_cons] at h
    have hk : k ≠ kv.1 := fun hc => h (hc ▸ List.mem_cons_self _ _)
    have hrest : k ∉ rest.map Prod.fst := fun hc => h (List.mem_cons_of_mem _ hc)
    rw [setAll, ih _ hrest]
    simp [setenvF, hk]

theorem setAll_mem (kvs : List (String × String)) (e : EnvTable)
    (h : (kvs.map Prod.fst).Nodup) (kv : String × String) (hm : kv ∈ kvs) :
    setAll kvs e kv.1 = some kv.2 := by
  induction kvs generalizing e with
  | nil => cases hm
  | cons kv0 rest ih =>
    rw [List.map_cons, List.nodup_cons] at h
    rcases List.mem_cons.mp hm with heq | hmem
    · subst heq
      rw [setAll, setAll_not_mem _ _ _ h.1]
      simp [setenvF]
    · exact ih _ h.2 hmem

theorem restoreOld_not_mem (old : List (String × Option String)) (e : EnvTable) (k : String)
    (h : k ∉ old.map Prod.fst) : restoreOld old e k = e k := by
  induction old generalizing e with
  | nil => rfl
  | cons kv rest ih =>
    obtain ⟨k0, w0⟩ := kv
    rw [List.map_cons] at h
    have hk : k ≠ k0 := fun hc => h (hc ▸ List.mem_cons_self _ _)
    have hrest : k ∉ rest.map Prod.fst := fun hc => h (List.mem_cons_of_mem _ hc)
    cases w0 with
    | none =>
      rw [show restoreOld ((k0, none) :: rest) e = restoreOld rest (unsetenvF e k0) from rfl,
        ih _ hrest]
      simp [unsetenvF, hk]
    | some v =>
      rw [show restoreOld ((k0, some v) :: rest) e = restoreOld rest (setenvF e k0 v) from rfl,
        ih _ hrest]
      simp [setenvF, hk]

theorem restoreOld_mem (old : List (String × Option String)) (e : EnvTable)
    (h : (old.map Prod.fst).Nodup) (k : String) (w : Option String)
    (hm : (k, w) ∈ old) : restoreOld old e k = w := by
  induction old generalizing e with
  | nil => cases hm
  | cons kv rest ih =>
    obtain ⟨k0, w0⟩ := kv
    rw [List.map_cons, List.nodup_cons] at h
    rcases List.mem_cons.mp hm with heq | hmem
    · injection heq with hk1 hk2
      subst hk1
      subst hk2
      cases w with
      | none =>
        rw [show restoreOld ((k, none) :: rest) e = restoreOld rest (unsetenvF e k) from rfl,
          restoreOld_not_mem _ _ _ h.1]
        simp [unsetenvF]
      | some v =>
        rw [show restoreOld ((k, some v) :: rest) e = restoreOld rest (setenvF e k v) from rfl,
          restoreOld_not_mem _ _ _ h.1]
        simp [setenvF]
    · cases w0 with
      | none =>
        rw [show restoreOld ((k0, none) :: rest) e = restoreOld rest (unsetenvF e k0) from rfl]
        exact ih _ h.2 hmem
      | some v =>
        rw [show restoreOld ((k0, some v) :: rest) e = restoreOld rest (setenvF e k0 v) from rfl]
        exact ih _ h.2 hmem

/-! ## Claim C1 -/

/-- C1: for every extra-environment map and wrapped operation,
`withExtraEnvSet` runs the operation on the table with each key of
`extraEnv` installed (every entry reads back as its overlay value), and
afterwards restores every such key to its pre-call state — set back to
the prior value if it was present, removed if it was absent — regardless
of the operation's result and of any mutation the operation performed;
and with a nil or an empty `extraEnv` the operation runs with no
environment mutation at all.  The key list carries the entries of a Go
map, hence the no-duplicate-keys hypothesis, and the theorem holds for
every iteration order. -/
theorem claim1_scoped_env_overlay :
    (∀ (f : EnvTable → Except String Bytes × EnvTable) (env : EnvTable),
      withExtraEnvSet none f env = f env) ∧
    (∀ (f : EnvTable → Except String Bytes × EnvTable) (env : EnvTable),
      withExtraEnvSet (some []) f env = f env) ∧
    (∀ (kvs : List (String × String)) (f : EnvTable → Except String Bytes × EnvTable)
      (env : EnvTable), (kvs.map Prod.fst).Nodup →
      (withExtraEnvSet (some kvs) f env).1 = (f (setAll kvs env)).1 ∧
      (∀ kv ∈ kvs, setAll kvs env kv.1 = some kv.2) ∧
      (∀ k ∈ kvs.map Prod.fst, (withExtraEnvSet (some kvs) f env).2 k = env k)) := by
  refine ⟨fun f env => rfl, fun f env => rfl, fun kvs f env hnd => ?_⟩
  have hsnd : (saveAndSet kvs ([], env)).2 = setAll kvs env := saveAndSet_snd kvs [] env
  have hfst : (saveAndSet kvs ([], env)).1 =
      (kvs.map (fun kv => (kv.1, env kv.1))).reverse ++ [] := saveAndSet_fst kvs [] env hnd
  rw [List.append_nil] at hfst
  refine ⟨?_, fun kv hkv => setAll_mem kvs env hnd kv hkv, fun k hk => ?_⟩
  · show (f (saveAndSet kvs ([], env)).2).1 = (f (setAll kvs env)).1
    rw [hsnd]
  · show restoreOld (saveAndSet kvs ([], env)).1 (f (saveAndSet kvs ([], env)).2).2 k = env k
    rw [hfst]
    have hkeys : ((kvs.map (fun kv => (kv.1, env kv.1))).reverse.map Prod.fst).Nodup := by
      rw [List.map_reverse, List.map_map]
      exact List.nodup_reverse.mpr hnd
    obtain ⟨kv, hkv, hfstkv⟩ := List.mem_map.mp hk
    have hmem : (k, env k) ∈ (kvs.map (fun kv => (kv.1, env kv.1))).reverse := by
      rw [List.mem_reverse]
      exact List.mem_map.mpr ⟨kv, hkv, by simp [hfstkv]⟩
    exact restoreOld_mem _ _ hkeys k (env k) hmem

/-- Concrete data for the C1 witness: two overlay keys with no
duplicates, a pre-call environment where the first key is present and the
second absent. -/
def sampleKvs : List (String × String) := [("CFG_A", "overlay1"), ("CFG_B", "overlay2")]

/-- Concrete pre-call environment for the C1 witness. -/
def sampleEnv : EnvTable := fun k => if k = "CFG_A" then some "orig" else none

/-- Concrete wrapped operation for the C1 witness: it fails, and it also
clobbers both overlay keys before failing. -/
def sampleOp : EnvTable → Except String Bytes × EnvTable :=
  fun e => (Except.error "read failed", setenvF (unsetenvF e "CFG_A") "CFG_B" "junk")

/-- Witness for C1 at a concrete overlay, environment and failing
operation: both keys are restored to their pre-call state. -/
theorem claim1_scoped_env_overlay_witness :
    sampleEnv "CFG_A" = some "orig" ∧ sampleEnv "CFG_B" = none ∧
    (withExtraEnvSet (some sampleKvs) sampleOp sampleEnv).2 "CFG_A" = sampleEnv "CFG_A" ∧
    (withExtraEnvSet (some sampleKvs) sampleOp sampleEnv).2 "CFG_B" = sampleEnv "CFG_B" :=
  ⟨rfl, rfl,
    (claim1_scoped_env_overlay.2.2 sampleKvs sampleOp sampleEnv (by decide)).2.2
      "CFG_A" (by decide),
    (claim1_scoped_env_overlay.2.2 sampleKvs sampleOp sampleEnv (by decide)).2.2
      "CFG_B" (by decide)⟩

/-! ## Claim C2 -/

/-- C2: `ValidateVersion` fails exactly when a constraint set was parsed,
the runtime version parses, and the parsed version violates the
constraints; in every other case it succeeds; and the failure error names
both the runtime version and the constraint expression.  The four
conjuncts cover the four exhaustive cases, so together they give the
if-and-only-if. -/
theorem claim2_validate_version {V : Type} (ops : Ops V) (c : Config) (version : String) :
    (c.versionConstraints = none → ValidateVersion ops c version = Except.ok ()) ∧
    (ops.parseVersion version = none → ValidateVersion ops c version = Except.ok ()) ∧
    (∀ cs v, c.versionConstraints = some cs → ops.parseVersion version = some v →
      ops.checkConstraints cs v = true → ValidateVersion ops c version = Except.ok ()) ∧
    (∀ cs v, c.versionConstraints = some cs → ops.parseVersion version = some v →
      ops.checkConstraints cs v = false →
      ValidateVersion ops c version = Except.error
        ("version " ++ version ++ " does not satisfy constraints required_version: " ++ cs)) := by
  refine ⟨fun h => ?_, fun h => ?_, fun cs v h1 h2 h3 => ?_, fun cs v h1 h2 h3 => ?_⟩
  · simp [ValidateVersion, h]
  · cases hc : c.versionConstraints with
    | none => simp [ValidateVersion, hc]
    | some cs => simp [ValidateVersion, hc, h]
  · simp [ValidateVersion, h1, h2, h3]
  · simp [ValidateVersion, h1, h2, h3]

/-- A concrete instance of the external collaborators, used by the
witnesses: the readers echo their input, decoding yields the empty
config, constraint parsing succeeds with the expression itself, version
`"1.9.0"` parses to `190` and `"2.1.0"` to `210`, the check requires at
least `200`, AWS loading succeeds, plugin setup is the identity, and
there are no built-in default plugins. -/
def plainOps : Ops Nat where
  readFile := fun _ _ => Except.ok "doc"
  readBytes := fun b _ => Except.ok b
  evalJsonnet := fun _ _ => Except.ok "{}"
  unmarshalYAML := fun _ => Except.ok {}
  unmarshalJSON := fun _ => Except.ok {}
  newConstraint := fun s => Except.ok s
  parseVersion := fun s =>
    if s = "1.9.0" then some 190 else if s = "2.1.0" then some 210 else none
  checkConstraints := fun _ v => decide (200 ≤ v)
  loadAws := Except.ok ()
  setup := fun _ c => Except.ok c
  defaultPluginNames := []

/-- Witness for C2: with the constraint expression `">= 2.0.0"`, runtime
version `"1.9.0"` is rejected with the error naming both, `"2.1.0"` is
accepted, the unparsable `"current"` is accepted, and without a parsed
constraint set everything is accepted. -/
theorem claim2_validate_version_witness :
    ValidateVersion plainOps { versionConstraints := some ">= 2.0.0" } "1.9.0" =
      Except.error
        ("version " ++ "1.9.0" ++ " does not satisfy constraints required_version: " ++
          ">= 2.0.0") ∧
    ValidateVersion plainOps { versionConstraints := some ">= 2.0.0" } "2.1.0" =
      Except.ok () ∧
    ValidateVersion plainOps { versionConstraints := some ">= 2.0.0" } "current" =
      Except.ok () ∧
    ValidateVersion plainOps { versionConstraints := none } "1.9.0" = Except.ok () :=
  ⟨(claim2_validate_version plainOps { versionConstraints := some ">= 2.0.0" } "1.9.0").2.2.2
      ">= 2.0.0" 190 rfl (by decide) (by decide),
   (claim2_validate_version plainOps { versionConstraints := some ">= 2.0.0" } "2.1.0").2.2.1
      ">= 2.0.0" 210 rfl (by decide) (by decide),
   (claim2_validate_version plainOps { versionConstraints := some ">= 2.0.0" } "current").2.1
      (by decide),
   (claim2_validate_version plainOps { versionConstraints := none } "1.9.0").1 rfl⟩

/-! ## Shared shape lemmas about `Load` -/

theorem loadFinish_snd {V : Type} (ops : Ops V) (path version : String) (conf0 : Config)
    (env : EnvTable) : (loadFinish ops path version conf0 env).2 = env := by
  unfold loadFinish
  split
  · rfl
  · split <;> rfl

theorem loadFinish_shape {V : Type} (ops : Ops V) (path version : String) (conf0 : Config)
    (env : EnvTable) :
    (∃ c, (loadFinish ops path version conf0 env).1 = (some c, none)) ∨
    ((loadFinish ops path version conf0 env).1.1 = none ∧
      ∃ e, (loadFinish ops path version conf0 env).1.2 = some e) := by
  unfold loadFinish
  split
  · exact Or.inr ⟨rfl, _, rfl⟩
  · split
    · exact Or.inr ⟨rfl, _, rfl⟩
    · exact Or.inl ⟨_, rfl⟩

theorem ReadWithEnv_none {V : Type} (ops : Ops V) (p : String) (env : EnvTable) :
    ReadWithEnv ops p none env = (ops.readFile p env, env) := rfl

theorem ReadWithEnvBytes_none {V : Type} (ops : Ops V) (b : Bytes) (env : EnvTable) :
    ReadWithEnvBytes ops b none env = (ops.readBytes b env, env) := rfl

theorem Load_yaml {V : Type} (ops : Ops V) (path version : String) (env : EnvTable)
    (h : goExt path = ymlExt ∨ goExt path = yamlExt) :
    Load ops path version env =
      match ops.readFile path env with
      | Except.error e => ((none, some e), env)
      | Except.ok b =>
        match ops.unmarshalYAML b with
        | Except.error e => ((none, some ("failed to parse yaml: " ++ e)), env)
        | Except.ok conf0 => loadFinish ops path version conf0 env := by
  unfold Load
  rw [if_pos h, ReadWithEnv_none]
  rcases hb : ops.readFile path env with e | b <;> simp [hb]

theorem Load_json {V : Type} (ops : Ops V) (path version : String) (env : EnvTable)
    (h1 : ¬(goExt path = ymlExt ∨ goExt path = yamlExt))
    (h2 : goExt path = jsonExt ∨ goExt path = jsonnetExt) :
    Load ops path version env =
      match ops.evalJsonnet path env with
      | Except.error e => ((none, some ("failed to evaluate jsonnet file: " ++ e)), env)
      | Except.ok jsonStr =>
        match ops.readBytes jsonStr env with
        | Except.error e => ((none, some ("failed to read template file: " ++ e)), env)
        | Except.ok b =>
          match ops.unmarshalJSON b with
          | Except.error e => ((none, some ("failed to unmarshal json: " ++ e)), env)
          | Except.ok conf0 => loadFinish ops path version conf0 env := by
  unfold Load
  rw [if_neg h1, if_pos h2]
  rcases hjs : ops.evalJsonnet path env with e | js
  · simp [hjs]
  · simp only [ReadWithEnvBytes_none]
    rcases hb : ops.readBytes js env with e | b <;> simp [hb]

theorem Load_other {V : Type} (ops : Ops V) (path version : String) (env : EnvTable)
    (h1 : ¬(goExt path = ymlExt ∨ goExt path = yamlExt))
    (h2 : ¬(goExt path = jsonExt ∨ goExt path = jsonnetExt)) :
    Load ops path version env =
      ((none, some ("unsupported config file extension: " ++ goExt path)), env) := by
  unfold Load
  rw [if_neg h1, if_neg h2]

theorem Load_shape {V : Type} (ops : Ops V) (path version : String) (env : EnvTable) :
    (Load ops path version env).2 = env ∧
    ((∃ c, (Load ops path version env).1 = (some c, none)) ∨
     ((Load ops path version env).1.1 = none ∧
       ∃ e, (Load ops path version env).1.2 = some e)) := by
  by_cases h1 : goExt path = ymlExt ∨ goExt path = yamlExt
  · rw [Load_yaml ops path version env h1]
    rcases hb : ops.readFile path env with e | b
    · exact ⟨rfl, Or.inr ⟨rfl, _, rfl⟩⟩
    · simp only []
      rcases hu : ops.unmarshalYAML b with e | conf0
      · exact ⟨rfl, Or.inr ⟨rfl, _, rfl⟩⟩
      · exact ⟨loadFinish_snd ops path version conf0 env,
          loadFinish_shape ops path version conf0 env⟩
  · by_cases h2 : goExt path = jsonExt ∨ goExt path = jsonnetExt
    · rw [Load_json ops path version env h1 h2]
      rcases hjs : ops.evalJsonnet path env with e | js
      · exact ⟨rfl, Or.inr ⟨rfl, _, rfl⟩⟩
      · simp only []
        rcases hb : ops.readBytes js env with e | b
        · exact ⟨rfl, Or.inr ⟨rfl, _, rfl⟩⟩
        · simp only []
          rcases hu : ops.unmarshalJSON b with e | conf0
          · exact ⟨rfl, Or.inr ⟨rfl, _, rfl⟩⟩
          · exact ⟨loadFinish_snd ops path version conf0 env,
              loadFinish_shape ops path version conf0 env⟩
    · rw [Load_other ops path version env h1 h2]
      exact ⟨rfl, Or.inr ⟨rfl, _, rfl⟩⟩

/-! ## Claim C3 -/

/-- C3: for every path, version string, environment and behavior of the
external collaborators, `Load` either succeeds with a config and a nil
error, or returns a nil config together with a non-nil error — the caller
never receives a partially populated config, whichever stage failed. -/
theorem claim3_load_all_or_nothing {V : Type} (ops : Ops V) (path version : String)
    (env : EnvTable) :
    (∃ c, (Load ops path version env).1 = (some c, none)) ∨
    ((Load ops path version env).1.1 = none ∧
      ∃ e, (Load ops path version env).1.2 = some e) :=
  (Load_shape ops path version env).2

/-! ## Claim C10 -/

/-- C10: `Load` hands a nil extra environment to both read paths (a nil
overlay runs the operation with no mutation, first conjunct), and the
whole of `Load` leaves the process environment table unchanged, whatever
the collaborators do (second conjunct); in particular the config's own
`Env` mapping is never installed by `Load` itself. -/
theorem claim10_load_env_frame {V : Type} (ops : Ops V) (path version : String)
    (env : EnvTable) :
    (∀ (f : EnvTable → Except String Bytes × EnvTable) (e : EnvTable),
      withExtraEnvSet none f e = f e) ∧
    (Load ops path version env).2 = env :=
  ⟨fun _ _ => rfl, (Load_shape ops path version env).1⟩

/-! ## Claim C6 -/

/-- C6: `ConfigIgnore.Apply` writes back exactly the tags whose key is not
in the rule's key list (membership characterization, with order preserved
— the written-back list is a sublist of the input), a nil rule or an
empty key list passes the tags through unchanged, the returned error is
always nil, and applying the transform twice yields the same tag list as
applying it once. -/
theorem claim6_tag_filter (ig : ConfigIgnore) (i : Option ConfigIgnore) (tags : List Tag) :
    (ConfigIgnoreApply none tags = (tags, none)) ∧
    (ig.Tags = [] → ConfigIgnoreApply (some ig) tags = (tags, none)) ∧
    (∀ t, t ∈ (ConfigIgnoreApply (some ig) tags).1 ↔
      t ∈ tags ∧ (ig.Tags = [] ∨ awsToString t.Key ∉ ig.Tags)) ∧
    (ConfigIgnoreApply i tags).2 = none ∧
    (ConfigIgnoreApply i tags).1.Sublist tags ∧
    ConfigIgnoreApply i (ConfigIgnoreApply i tags).1 = ConfigIgnoreApply i tags := by
  refine ⟨rfl, fun h => ?_, fun t => ?_, rfl, ?_, ?_⟩
  · simp [ConfigIgnoreApply, filterTags, h]
  · by_cases hT : ig.Tags = []
    · simp [ConfigIgnoreApply, filterTags, hT]
    · have hlen : ¬ ig.Tags.length = 0 := by simpa [List.length_eq_zero] using hT
      simp [ConfigIgnoreApply, filterTags, hT, hlen, List.mem_filter]
  · rcases i with _ | ig2
    · exact List.Sublist.refl tags
    · by_cases hT : ig2.Tags.length = 0
      · simp [ConfigIgnoreApply, filterTags, hT]
      · simp only [ConfigIgnoreApply, filterTags, if_neg hT]
        exact List.filter_sublist tags
  · rcases i with _ | ig2
    · rfl
    · by_cases hT : ig2.Tags.length = 0
      · simp [ConfigIgnoreApply, filterTags, hT]
      · simp only [ConfigIgnoreApply, filterTags, if_neg hT]
        rw [List.filter_filter]
        refine congrArg (fun l => (l, (none : Option String))) ?_
        exact List.filter_congr (fun t _ => by rw [Bool.and_self])

/-- Witness for C6 at the spec's end-to-end scenario D: the ignore rule
`{tags: ["ecspresso:ignore"]}` strips exactly the tag with that key, and
the empty-rule case passes tags through. -/
theorem claim6_tag_filter_witness :
    ((ConfigIgnoreApply (some { Tags := ["ecspresso:ignore"] })
        [{ Key := some "ecspresso:ignore", Value := some "x" },
         { Key := some "env", Value := some "prod" }]).1 =
      [{ Key := some "env", Value := some "prod" }] ∧
      ConfigIgnoreApply (some { Tags := [] })
        [{ Key := some "env", Value := some "prod" }] =
        ([{ Key := some "env", Value := some "prod" }], none)) ∧
    ({ Key := some "env", Value := some "prod" } : Tag) ∈
      (ConfigIgnoreApply (some { Tags := ["ecspresso:ignore"] })
        [{ Key := some "ecspresso:ignore", Value := some "x" },
         { Key := some "env", Value := some "prod" }]).1 :=
  ⟨⟨by decide,
    (claim6_tag_filter { Tags := [] } none
      [{ Key := some "env", Value := some "prod" }]).2.1 rfl⟩,
   ((claim6_tag_filter { Tags := ["ecspresso:ignore"] } none
      [{ Key := some "ecspresso:ignore", Value := some "x" },
       { Key := some "env", Value := some "prod" }]).2.2.1
      { Key := some "env", Value := some "prod" }).mpr ⟨by decide, by decide⟩⟩

/-! ## Claim C8 -/

/-- C8: a path whose extension is none of `.yml`, `.yaml`, `.json`,
`.jsonnet` makes `Load` fail at once with the unsupported-extension
error, for every behavior of the collaborators — so before anything is
read, decoded or normalized — and with the environment untouched. -/
theorem claim8_unsupported_extension {V : Type} (ops : Ops V) (path version : String)
    (env : EnvTable)
    (h1 : goExt path ≠ ymlExt) (h2 : goExt path ≠ yamlExt)
    (h3 : goExt path ≠ jsonExt) (h4 : goExt path ≠ jsonnetExt) :
    Load ops path version env =
      ((none, some ("unsupported config file extension: " ++ goExt path)), env) :=
  Load_other ops path version env (by simp [h1, h2]) (by simp [h3, h4])

/-- Witness for C8 at a concrete `.toml` path. -/
theorem claim8_unsupported_extension_witness :
    goExt "ecspresso.toml" = ".toml" ∧
    Load plainOps "ecspresso.toml" "2.3.5" sampleEnv =
      ((none, some ("unsupported config file extension: " ++ goExt "ecspresso.toml")),
        sampleEnv) :=
  ⟨by decide,
   claim8_unsupported_extension plainOps "ecspresso.toml" "2.3.5" sampleEnv
     (by decide) (by decide) (by decide) (by decide)⟩

/-! ## Lemmas about the path functions -/

theorem strData_append (a b : String) : (a ++ b).data = a.data ++ b.data := rfl

theorem goIsAbs_data (p : String) : goIsAbs p = true ↔ ∃ t, p.data = '/' :: t := by
  rcases hd : p.data with _ | ⟨c, t⟩ <;> simp [goIsAbs, hd]

theorem goIsAbs_append (a s : String) (h : goIsAbs a = true) :
    goIsAbs (a ++ s) = true := by
  obtain ⟨t, ht⟩ := (goIsAbs_data a).mp h
  refine (goIsAbs_data _).mpr ⟨t ++ s.data, ?_⟩
  rw [strData_append, ht]
  rfl

theorem str_ne_empty_of_abs (a : String) (h : goIsAbs a = true) : a ≠ "" := by
  intro hc
  subst hc
  simp [goIsAbs] at h

theorem goClean_abs (p : String) (h : goIsAbs p = true) : goIsAbs (goClean p) = true := by
  have hne : p ≠ "" := str_ne_empty_of_abs p h
  unfold goClean
  rw [if_neg hne, h]
  simp only [if_true]
  by_cases hout : (splitSlashAux p.data []).foldl (cleanPush true) [] = []
  · rw [if_pos hout]
    rfl
  · rw [if_neg hout]
    exact goIsAbs_append "/" _ rfl

theorem goJoin_abs (a b : String) (h : goIsAbs a = true) :
    goIsAbs (goJoin a b) = true := by
  have ha : a ≠ "" := str_ne_empty_of_abs a h
  unfold goJoin
  rw [if_pos ha]
  exact goClean_abs _ (goIsAbs_append _ _ (goIsAbs_append _ _ h))

/-! ## Claim C5 -/

/-- C5 counterexample: loading a config from the current directory gives
`dir = "."`; after a successful `Restrict` (with benign collaborators)
the relative `service_definition` path `"ecs-service-def.json"` is joined
onto `"."` and comes out still relative — not absolute as claimed.  The
twice-equals-once part also fails on a relative directory: normalizing
`"x"` against `"sub"` twice gives `"sub/sub/x"`. -/
theorem claim5_path_normalization_counterexample :
    (Restrict plainOps
        { ServiceDefinitionPath := "ecs-service-def.json",
          TaskDefinitionPath := "ecs-task-def.json", dir := "." } sampleEnv).toOption.map
      (fun c => c.ServiceDefinitionPath) = some "ecs-service-def.json" ∧
    goIsAbs "ecs-service-def.json" = false ∧
    goJoin "." "ecs-service-def.json" = "ecs-service-def.json" ∧
    normPath "sub" (normPath "sub" "x") ≠ normPath "sub" "x" := by
  refine ⟨by decide, by decide, by decide, by decide⟩

/-- C5 (amended): provided the config directory is absolute — which holds
whenever the config file itself was given by an absolute path — a
non-empty relative definition path normalizes to `join(configDir, path)`
and the result is absolute; an already-absolute path is left unchanged;
and the normalization step is idempotent.  (Without the absolute-directory
premise the join result keeps the directory's relativity, as the
counterexample shows.) -/
theorem claim5_path_normalization_amended (dir p : String) (hdir : goIsAbs dir = true) :
    (p ≠ "" → goIsAbs p = false →
      normPath dir p = goJoin dir p ∧ goIsAbs (normPath dir p) = true) ∧
    (goIsAbs p = true → normPath dir p = p) ∧
    normPath dir (normPath dir p) = normPath dir p := by
  refine ⟨fun hne habs => ?_, fun habs => ?_, ?_⟩
  · have heq : normPath dir p = goJoin dir p := by
      unfold normPath
      rw [if_pos ⟨hne, habs⟩]
    exact ⟨heq, by rw [heq]; exact goJoin_abs dir p hdir⟩
  · unfold normPath
    rw [if_neg]
    simp [habs]
  · by_cases hne : p = ""
    · subst hne
      unfold normPath
      simp
    · rcases habs : goIsAbs p with _ | _
      · have h1 : normPath dir p = goJoin dir p := by
          unfold normPath
          rw [if_pos ⟨hne, habs⟩]
        rw [h1]
        have h2 : goIsAbs (goJoin dir p) = true := goJoin_abs dir p hdir
        unfold normPath
        rw [if_neg]
        simp [h2]
      · have h1 : normPath dir p = p := by
          unfold normPath
          rw [if_neg]
          simp [habs]
        rw [h1, h1]

/-- Witness for the amended C5 at `dir = "/work"`, `p = "def.json"`. -/
theorem claim5_path_normalization_amended_witness :
    goIsAbs "/work" = true ∧
    normPath "/work" "def.json" = goJoin "/work" "def.json" ∧
    goIsAbs (normPath "/work" "def.json") = true ∧
    normPath "/work" (normPath "/work" "def.json") = normPath "/work" "def.json" :=
  ⟨by decide,
   ((claim5_path_normalization_amended "/work" "def.json" (by decide)).1
      (by decide) (by decide)).1,
   ((claim5_path_normalization_amended "/work" "def.json" (by decide)).1
      (by decide) (by decide)).2,
   (claim5_path_normalization_amended "/work" "def.json" (by decide)).2.2⟩

/-! ## Lemmas about the plugin pipeline and `Restrict` -/

theorem setupPluginsList_eq_T (setup : ConfigPlugin → Config → Except String Config) :
    ∀ (ps : List ConfigPlugin) (c : Config),
      setupPluginsList setup ps c = (setupPluginsListT setup ps c).1 := by
  intro ps
  induction ps with
  | nil => intro c; rfl
  | cons p rest ih =>
    intro c
    unfold setupPluginsList setupPluginsListT
    rcases hs : setup p c with e | c2
    · rfl
    · exact ih c2

theorem setupPluginsListT_ok_trace (setup : ConfigPlugin → Config → Except String Config) :
    ∀ (ps : List ConfigPlugin) (c c2 : Config),
      (setupPluginsListT setup ps c).1 = Except.ok c2 →
      (setupPluginsListT setup ps c).2 = ps.map (fun p => p.Name) := by
  intro ps
  induction ps with
  | nil => intro c c2 _; rfl
  | cons p rest ih =>
    intro c c2 h
    unfold setupPluginsListT at h ⊢
    rcases hs : setup p c with e | cmid
    · rw [hs] at h
      exact absurd h (by simp)
    · rw [hs] at h
      show p.Name :: (setupPluginsListT setup rest cmid).2 = p.Name :: rest.map (fun p => p.Name)
      have h2 : (setupPluginsListT setup rest cmid).1 = Except.ok c2 := h
      exact congrArg (List.cons p.Name) (ih cmid c2 h2)

theorem setupPluginsListT_abort (setup : ConfigPlugin → Config → Except String Config) :
    ∀ (ps1 : List ConfigPlugin) (p : ConfigPlugin) (ps2 : List ConfigPlugin)
      (c cmid : Config) (e : String),
      setupPluginsList setup ps1 c = Except.ok cmid →
      setup p cmid = Except.error e →
      setupPluginsListT setup (ps1 ++ p :: ps2) c =
        (Except.error e, ps1.map (fun q => q.Name) ++ [p.Name]) := by
  intro ps1
  induction ps1 with
  | nil =>
    intro p ps2 c cmid e h1 h2
    have hc : c = cmid := by
      unfold setupPluginsList at h1
      injection h1
    subst hc
    show setupPluginsListT setup (p :: ps2) c = _
    unfold setupPluginsListT
    rw [h2]
    rfl
  | cons q rest ih =>
    intro p ps2 c cmid e h1 h2
    unfold setupPluginsList at h1
    rcases hs : setup q c with eq | cnext
    · rw [hs] at h1
      exact absurd h1 (by simp)
    · rw [hs] at h1
      have h1b : setupPluginsList setup rest cnext = Except.ok cmid := h1
      show setupPluginsListT setup (q :: (rest ++ p :: ps2)) c = _
      unfold setupPluginsListT
      rw [hs]
      show ((setupPluginsListT setup (rest ++ p :: ps2) cnext).1,
            q.Name :: (setupPluginsListT setup (rest ++ p :: ps2) cnext).2) = _
      rw [ih p ps2 cnext cmid e h1b h2]
      rfl

/-- A substring relation used to state that an error message embeds a
plugin's name. -/
def strContains (hay sub : String) : Prop :=
  ∃ pre post, hay = pre ++ sub ++ post

theorem setupPluginsListT_error_name (setup : ConfigPlugin → Config → Except String Config)
    (hname : ∀ q cc ee, setup q cc = Except.error ee → strContains ee q.Name) :
    ∀ (ps : List ConfigPlugin) (c : Config) (e : String),
      (setupPluginsListT setup ps c).1 = Except.error e →
      ∃ q ∈ ps, strContains e q.Name := by
  intro ps
  induction ps with
  | nil => intro c e h; exact absurd h (by simp [setupPluginsListT])
  | cons p rest ih =>
    intro c e h
    unfold setupPluginsListT at h
    rcases hs : setup p c with ep | cmid
    · rw [hs] at h
      have he : Except.error (α := Config) (ε := String) ep = Except.error e := h
      injection he with he2
      exact ⟨p, List.mem_cons_self _ _, he2 ▸ hname p c ep hs⟩
    · rw [hs] at h
      have h2 : (setupPluginsListT setup rest cmid).1 = Except.error e := h
      obtain ⟨q, hq, hqc⟩ := ih cmid e h2
      exact ⟨q, List.mem_cons_of_mem _ hq, hqc⟩

theorem setupPlugins_eq_T {V : Type} (ops : Ops V) (c : Config) :
    setupPlugins ops c =
      (setupPluginsListT ops.setup (mkDefaultPlugins ops.defaultPluginNames ++ c.Plugins) c).1 :=
  setupPluginsList_eq_T ops.setup _ c

theorem Restrict_eq_T {V : Type} (ops : Ops V) (c : Config) (env : EnvTable) :
    (RestrictT ops c env).1 = Restrict ops c env := by
  simp only [Restrict, RestrictT, setupPlugins_eq_T]
  split
  · rfl
  · split
    · rfl
    · rfl

theorem Restrict_constraint_error {V : Type} (ops : Ops V) (c : Config) (env : EnvTable)
    (e : String) (hrv : c.RequiredVersion ≠ "")
    (hpc : ops.newConstraint c.RequiredVersion = Except.error e) :
    Restrict ops c env = Except.error ("required_version has invalid format: " ++ e) := by
  by_cases h1 : c.Cluster = "" <;> by_cases h2 : c.dir = "" <;>
    simp [Restrict, h1, h2, hrv, hpc]

theorem RestrictT_constraint_silent {V : Type} (ops : Ops V) (c : Config) (env : EnvTable)
    (e : String) (hrv : c.RequiredVersion ≠ "")
    (hpc : ops.newConstraint c.RequiredVersion = Except.error e) :
    (RestrictT ops c env).2 = [] := by
  by_cases h1 : c.Cluster = "" <;> by_cases h2 : c.dir = "" <;>
    simp [RestrictT, h1, h2, hrv, hpc]

/-! ## Claim C4 -/

/-- C4: a non-empty, syntactically invalid `required_version` makes
normalization fail with the fatal constraint-syntax error before any
plugin's `Setup` is invoked: the error is produced for every behavior of
the plugin and AWS collaborators, the instrumented run records no invoked
plugin, and (instrumentation soundness) the instrumented run always
agrees with `Restrict`; through the YAML `Load` path the same error is
what the caller receives, with a nil config. -/
theorem claim4_invalid_constraint_before_plugins {V : Type} (ops : Ops V) (env : EnvTable)
    (e : String) :
    (∀ c : Config, c.RequiredVersion ≠ "" →
      ops.newConstraint c.RequiredVersion = Except.error e →
      Restrict ops c env = Except.error ("required_version has invalid format: " ++ e) ∧
      (RestrictT ops c env).2 = [] ∧
      (RestrictT ops c env).1 = Restrict ops c env) ∧
    (∀ (path version : String) (b : Bytes) (conf0 : Config),
      (goExt path = ymlExt ∨ goExt path = yamlExt) →
      ops.readFile path env = Except.ok b →
      ops.unmarshalYAML b = Except.ok conf0 →
      conf0.RequiredVersion ≠ "" →
      ops.newConstraint conf0.RequiredVersion = Except.error e →
      (Load ops path version env).1 =
        (none, some ("required_version has invalid format: " ++ e))) := by
  constructor
  · intro c hrv hpc
    exact ⟨Restrict_constraint_error ops c env e hrv hpc,
           RestrictT_constraint_silent ops c env e hrv hpc,
           Restrict_eq_T ops c env⟩
  · intro path version b conf0 hext hrf hun hrv hpc
    rw [Load_yaml ops path version env hext]
    simp only [hrf, hun]
    unfold loadFinish
    have hrv2 : ({ conf0 with path := path, dir := goDir path } : Config).RequiredVersion ≠ "" :=
      hrv
    have hpc2 : ops.newConstraint
        ({ conf0 with path := path, dir := goDir path } : Config).RequiredVersion =
        Except.error e := hpc
    rw [Restrict_constraint_error ops _ env e hrv2 hpc2]

/-- An `Ops` variant for the C4 witness: constraint parsing always fails
with a fixed syntax error, and the YAML decoder produces a config
carrying a non-empty `required_version`. -/
def badConstraintOps : Ops Nat :=
  { plainOps with
    newConstraint := fun _ => Except.error "Malformed constraint: >>="
    unmarshalYAML := fun _ => Except.ok { RequiredVersion := ">>= 2" } }

/-- Witness for C4 at a concrete invalid constraint: `Restrict` fails
with the wrapped syntax error, no plugin is invoked, and the YAML `Load`
path surfaces the same error with a nil config. -/
theorem claim4_invalid_constraint_before_plugins_witness :
    Restrict badConstraintOps { RequiredVersion := ">>= 2" } sampleEnv =
      Except.error ("required_version has invalid format: " ++ "Malformed constraint: >>=") ∧
    (RestrictT badConstraintOps { RequiredVersion := ">>= 2" } sampleEnv).2 = [] ∧
    (Load badConstraintOps "ecspresso.yml" "2.3.5" sampleEnv).1 =
      (none, some ("required_version has invalid format: " ++ "Malformed constraint: >>=")) := by
  have h := claim4_invalid_constraint_before_plugins badConstraintOps sampleEnv
    "Malformed constraint: >>="
  exact ⟨(h.1 { RequiredVersion := ">>= 2" } (by decide) rfl).1,
         (h.1 { RequiredVersion := ">>= 2" } (by decide) rfl).2.1,
         h.2 "ecspresso.yml" "2.3.5" "doc" { RequiredVersion := ">>= 2" }
           (Or.inl (by decide)) rfl rfl (by decide) rfl⟩

/-! ## Claim C7 -/

theorem setupPluginsList_preserves (setup : ConfigPlugin → Config → Except String Config)
    (hpres : ∀ p cc cc', setup p cc = Except.ok cc' →
      cc'.Cluster = cc.Cluster ∧ cc'.Timeout = cc.Timeout) :
    ∀ (ps : List ConfigPlugin) (c c' : Config),
      setupPluginsList setup ps c = Except.ok c' →
      c'.Cluster = c.Cluster ∧ c'.Timeout = c.Timeout := by
  intro ps
  induction ps with
  | nil =>
    intro c c' h
    unfold setupPluginsList at h
    injection h with h2
    subst h2
    exact ⟨rfl, rfl⟩
  | cons p rest ih =>
    intro c c' h
    unfold setupPluginsList at h
    rcases hs : setup p c with e | c2
    · rw [hs] at h
      exact absurd h (by simp)
    · rw [hs] at h
      have h2 : setupPluginsList setup rest c2 = Except.ok c' := h
      obtain ⟨ha, hb⟩ := ih c2 c' h2
      obtain ⟨hc, hd⟩ := hpres p c c2 hs
      exact ⟨ha.trans hc, hb.trans hd⟩

theorem setupPlugins_preserves {V : Type} (ops : Ops V)
    (hpres : ∀ p cc cc', ops.setup p cc = Except.ok cc' →
      cc'.Cluster = cc.Cluster ∧ cc'.Timeout = cc.Timeout)
    (cfg c' : Config) (h : setupPlugins ops cfg = Except.ok c') :
    c'.Cluster = cfg.Cluster ∧ c'.Timeout = cfg.Timeout :=
  setupPluginsList_preserves ops.setup hpres _ cfg c' h

theorem setupPlugins_wrap_ok {V : Type} (ops : Ops V) (cfg c' : Config)
    (h : (match setupPlugins ops cfg with
          | Except.error e => (Except.error ("failed to setup plugins: " ++ e) :
              Except String Config)
          | Except.ok c7 => Except.ok c7) = Except.ok c') :
    setupPlugins ops cfg = Except.ok c' := by
  rcases hs : setupPlugins ops cfg with e | c7
  · rw [hs] at h
    exact absurd h (by simp)
  · rw [hs] at h
    exact h

/-- C7 counterexample: the spec explicitly permits a plugin's `Setup` to
rewrite any field, including ones already defaulted; a plugin that clears
`Cluster` and `Timeout` makes `Restrict` succeed with an empty cluster
and a nil timeout, refuting the invariant as stated. -/
def hostileOps : Ops Nat :=
  { plainOps with
    setup := fun _ cc => Except.ok { cc with Cluster := "", Timeout := none } }

/-- C7 counterexample: with a single user plugin whose `Setup` clears
the two fields, `Restrict` succeeds yet the resulting cluster is empty
and the timeout nil. -/
theorem claim7_normalization_defaults_counterexample :
    (Restrict hostileOps { Plugins := [{ Name := "evil" }] } sampleEnv).toOption.map
      (fun c => (c.Cluster, c.Timeout)) = some ("", none) := by decide

/-- C7 (amended): provided every plugin `Setup` preserves the `Cluster`
and `Timeout` fields (as the built-in plugins do — the spec otherwise
allows plugins to rewrite any field), after every successful `Restrict`
the cluster is non-empty (equal to `"default"` when it was empty before)
and the timeout is non-nil (equal to the fixed 10-minute default when it
was nil before). -/
theorem claim7_normalization_defaults {V : Type} (ops : Ops V) (c : Config) (env : EnvTable)
    (c' : Config)
    (hpres : ∀ p cc cc', ops.setup p cc = Except.ok cc' →
      cc'.Cluster = cc.Cluster ∧ cc'.Timeout = cc.Timeout)
    (h : Restrict ops c env = Except.ok c') :
    c'.Cluster ≠ "" ∧ (c.Cluster = "" → c'.Cluster = DefaultClusterName) ∧
    c'.Timeout ≠ none ∧ (c.Timeout = none → c'.Timeout = some ⟨DefaultTimeout⟩) := by
  rcases hnc : ops.newConstraint c.RequiredVersion with ce | cs <;>
  rcases hla : ops.loadAws with ae | au <;>
  by_cases h1 : c.Cluster = "" <;> by_cases h3 : c.Timeout = none <;>
  by_cases h4 : c.Region = "" <;> by_cases h5 : c.RequiredVersion = "" <;>
  simp [Restrict, h1, h3, h4, h5, hnc, hla, apply_ite] at h <;>
  · have hsp := setupPlugins_wrap_ok ops _ c' h
    have hpv := setupPlugins_preserves ops hpres _ c' hsp
    simp at hpv
    refine ⟨?_, fun hcl => ?_, ?_, fun hti => ?_⟩ <;>
      simp_all [DefaultClusterName, DefaultTimeout]

/-- Concrete result of normalizing the empty config with the benign
collaborators (for the C7 witness). -/
def resolvedSample : Config :=
  { Cluster := "default", dir := ".", Timeout := some ⟨600000000000⟩ }

/-- Witness for the amended C7: with identity plugin setups, normalizing
the empty config succeeds, the cluster comes out as `"default"` and the
timeout as the 10-minute default. -/
theorem claim7_normalization_defaults_witness :
    Restrict plainOps {} sampleEnv = Except.ok resolvedSample ∧
    (resolvedSample.Cluster ≠ "" ∧
     (({} : Config).Cluster = "" → resolvedSample.Cluster = DefaultClusterName) ∧
     resolvedSample.Timeout ≠ none ∧
     (({} : Config).Timeout = none → resolvedSample.Timeout = some ⟨DefaultTimeout⟩)) :=
  ⟨rfl,
   claim7_normalization_defaults plainOps {} sampleEnv resolvedSample
     (fun p cc cc' hp => by
       have h2 : Except.ok (ε := String) cc = Except.ok cc' := hp
       injection h2 with h3
       subst h3
       exact ⟨rfl, rfl⟩)
     rfl⟩

/-! ## Claim C9 -/

/-- C9: the plugin pipeline runs `Setup` sequentially over the built-in
default plugins first and then the user-declared plugins in declaration
order (first conjunct: `setupPlugins` is the instrumented fold over
exactly that list); on an all-success run every plugin in that order is
invoked (second conjunct); the first failure aborts the pipeline — the
result is the failing plugin's own error and the invocation trace stops
at the failing plugin, so no later `Setup` runs (third conjunct); and
when every `Setup` error embeds its plugin's name, the pipeline's error
embeds the identity of one of the listed plugins (fourth conjunct). -/
theorem claim9_plugin_pipeline {V : Type} (ops : Ops V) (c : Config) :
    (setupPlugins ops c =
      (setupPluginsListT ops.setup (mkDefaultPlugins ops.defaultPluginNames ++ c.Plugins) c).1) ∧
    (∀ c2, (setupPluginsListT ops.setup
        (mkDefaultPlugins ops.defaultPluginNames ++ c.Plugins) c).1 = Except.ok c2 →
      (setupPluginsListT ops.setup (mkDefaultPlugins ops.defaultPluginNames ++ c.Plugins) c).2 =
        (mkDefaultPlugins ops.defaultPluginNames ++ c.Plugins).map (fun p => p.Name)) ∧
    (∀ (ps1 : List ConfigPlugin) (p : ConfigPlugin) (ps2 : List ConfigPlugin)
      (cc cmid : Config) (e : String),
      setupPluginsList ops.setup ps1 cc = Except.ok cmid →
      ops.setup p cmid = Except.error e →
      setupPluginsListT ops.setup (ps1 ++ p :: ps2) cc =
        (Except.error e, ps1.map (fun q => q.Name) ++ [p.Name])) ∧
    ((∀ q cc ee, ops.setup q cc = Except.error ee → strContains ee q.Name) →
      ∀ (ps : List ConfigPlugin) (cc : Config) (e : String),
        (setupPluginsListT ops.setup ps cc).1 = Except.error e →
        ∃ q ∈ ps, strContains e q.Name) :=
  ⟨setupPlugins_eq_T ops c,
   fun c2 => setupPluginsListT_ok_trace ops.setup _ c c2,
   fun ps1 p ps2 cc cmid e h1 h2 => setupPluginsListT_abort ops.setup ps1 p ps2 cc cmid e h1 h2,
   fun hname ps cc e h => setupPluginsListT_error_name ops.setup hname ps cc e h⟩

/-- A setup function for the C9 witness: it rejects the plugin named
`"bad"` with an error embedding the plugin name, and accepts the rest. -/
def failingSetup : ConfigPlugin → Config → Except String Config :=
  fun p c =>
    if p.Name = "bad" then Except.error ("plugin " ++ p.Name ++ " not available")
    else Except.ok c

/-- An `Ops` variant for the C9 witness. -/
def traceOps : Ops Nat :=
  { plainOps with setup := failingSetup, defaultPluginNames := ["tfstate"] }

/-- Witness for C9: with the default plugin `tfstate` succeeding and the
user plugin `bad` failing, the instrumented pipeline stops right after
`bad` — the plugin `later` is never invoked — and returns `bad`'s own
error, which embeds its name. -/
theorem claim9_plugin_pipeline_witness :
    setupPluginsListT traceOps.setup
        ([{ Name := "tfstate" }] ++ ({ Name := "bad" } : ConfigPlugin) ::
          [{ Name := "later" }]) {} =
      (Except.error ("plugin " ++ "bad" ++ " not available"),
        ([{ Name := "tfstate" }] : List ConfigPlugin).map (fun q => q.Name) ++ ["bad"]) ∧
    (∃ q ∈ ([{ Name := "tfstate" }] ++ ({ Name := "bad" } : ConfigPlugin) ::
        [{ Name := "later" }]),
      strContains ("plugin " ++ "bad" ++ " not available") q.Name) := by
  have habort := (claim9_plugin_pipeline traceOps ({} : Config)).2.2.1
    [{ Name := "tfstate" }] { Name := "bad" } [{ Name := "later" }] {} {}
    ("plugin " ++ "bad" ++ " not available") rfl rfl
  refine ⟨habort, ?_⟩
  have hname : ∀ q cc ee, traceOps.setup q cc = Except.error ee → strContains ee q.Name := by
    intro q cc ee he
    have he2 : failingSetup q cc = Except.error ee := he
    unfold failingSetup at he2
    by_cases hq : q.Name = "bad"
    · rw [if_pos hq] at he2
      injection he2 with he3
      exact ⟨"plugin ", " not available", he3.symm⟩
    · rw [if_neg hq] at he2
      exact absurd he2 (by simp)
  exact (claim9_plugin_pipeline traceOps ({} : Config)).2.2.2 hname _ {} _ (by rw [habort])
